import Mathlib

/-!
Life cycle driver interface

A verification development for
sw/device/silicon_creator/lib/drivers/lifecycle.h: the sparse encoding of the
life cycle states (enumeration lifecycle_state), the device identifier
structure, and the three driver entry points the header declares.

The header gives the enumeration, the identifier structure and the prototypes.
The bodies of the three functions live in lifecycle.c, which is not part of the
sources at hand; they are modelled from the specification and marked as such.
-/

namespace Lifecycle

/-! ## Data model taken from the header -/

/-- Enumeration lifecycle_state (lifecycle.h, lines 66 to 90): the five
enumerators, in declaration order. -/
inductive lifecycle_state_t where
  | kLcStateTest
  | kLcStateDev
  | kLcStateProd
  | kLcStateProdEnd
  | kLcStateRma
  deriving DecidableEq, Fintype

/-- The integer value the header assigns to each enumerator. -/
def lifecycle_state_t.value : lifecycle_state_t → Nat
  | .kLcStateTest => 0xb2865fbb
  | .kLcStateDev => 0x0b5a75e0
  | .kLcStateProd => 0x65f2520f
  | .kLcStateProdEnd => 0x91b9b68a
  | .kLcStateRma => 0xcf8cfaab

/-- The enumerators of lifecycle_state in declaration order. -/
def lifecycle_state_t.all : List lifecycle_state_t :=
  [.kLcStateTest, .kLcStateDev, .kLcStateProd, .kLcStateProdEnd, .kLcStateRma]

/-- The codewords of the header: the values of the enumerators, in declaration
order. -/
def codewords : List Nat :=
  lifecycle_state_t.all.map lifecycle_state_t.value

/-- Size of the device identifier in words (lifecycle.h, line 96). -/
def kLifecycleDeviceIdNumWords : Nat := 8

/-- Structure lifecycle_device_id (lifecycle.h, lines 102 to 104): an array of
kLifecycleDeviceIdNumWords words of type uint32_t. -/
structure lifecycle_device_id_t where
  device_id : Fin kLifecycleDeviceIdNumWords → Nat

/-! ## Hamming weight and distance over 32 bits -/

/-- Width of the encoding in bits (uint32_t). -/
def kWordBits : Nat := 32

/-- Hamming weight: the number of set bits among the low 32 bits of a value. -/
def hammingWeight (x : Nat) : Nat :=
  ((List.range kWordBits).filter (fun i => x.testBit i)).length

/-- Hamming distance: the weight of the bitwise exclusive or. -/
def hammingDistance (a b : Nat) : Nat :=
  hammingWeight (a ^^^ b)

/-- All unordered pairs of distinct positions of a list: each element paired
with every later one. -/
def unorderedPairs {α : Type} : List α → List (α × α)
  | [] => []
  | x :: xs => xs.map (fun y => (x, y)) ++ unorderedPairs xs

/-- The Hamming distances of the unordered pairs of distinct enumerators. -/
def pairDistances : List Nat :=
  (unorderedPairs lifecycle_state_t.all).map
    (fun p => hammingDistance p.1.value p.2.value)

/-- The histogram printed in the header comment (lines 25 to 59), as pair
counts: one bar of 10 percent is one of the ten pairs. -/
def headerHistogram (d : Nat) : Nat :=
  if d = 13 then 1
  else if d = 14 then 1
  else if d = 16 then 2
  else if d = 17 then 4
  else if d = 18 then 1
  else if d = 19 then 1
  else 0

/-! ## Parts modelled from the specification

The header declares lifecycle_state_get, lifecycle_raw_state_get and
lifecycle_device_id_get without bodies. What follows renders sections 3, 4
and 6 of the specification. -/

/-- Modelled from the spec: the canonical state of section 3, one of Test,
Dev, Prod, ProdEnd, Rma or the explicit Unrecognized sentinel. The header
itself has no such type: its enumeration lists the five states only. -/
inductive CanonicalState where
  | Test
  | Dev
  | Prod
  | ProdEnd
  | Rma
  | Unrecognized
  deriving DecidableEq, Fintype

/-- The canonical state each enumerator of the header stands for. -/
def lifecycle_state_t.canonical : lifecycle_state_t → CanonicalState
  | .kLcStateTest => .Test
  | .kLcStateDev => .Dev
  | .kLcStateProd => .Prod
  | .kLcStateProdEnd => .ProdEnd
  | .kLcStateRma => .Rma

/-- The codeword table of the code: each enumerator of the header with the
canonical state it stands for and its value. -/
def codewordTable : List (CanonicalState × Nat) :=
  lifecycle_state_t.all.map (fun s => (s.canonical, s.value))

/-- Modelled from the spec: the register-level table of section 6, written as
the specification prints it. It is the specification side of the comparison
with codewordTable. -/
def specCodewordTable : List (CanonicalState × Nat) :=
  [(.Test, 0xB2865FBB), (.Dev, 0x0B5A75E0), (.Prod, 0x65F2520F),
   (.ProdEnd, 0x91B9B68A), (.Rma, 0xCF8CFAAB)]

/-- Modelled from the spec: the hardware as the Register Reader of section 4.1
sees it, namely the life cycle status register and the eight identifier words
of the HW_CFG partition. The storage driver is not part of the sources. -/
structure Hardware where
  lc_state : Nat
  device_id_words : Fin kLifecycleDeviceIdNumWords → Nat

/-- Modelled from the spec: read_raw_state of section 4.1, a direct read of
the status register, which yields a 32-bit value. -/
def read_raw_state (hw : Hardware) : Nat :=
  hw.lc_state % 2 ^ 32

/-- Modelled from the spec: read_identity_words of section 4.1, a direct read
of the eight identifier words, each a 32-bit value. -/
def read_identity_words (hw : Hardware) : Fin kLifecycleDeviceIdNumWords → Nat :=
  fun i => hw.device_id_words i % 2 ^ 32

/-- Modelled from the spec: decode of section 4.3, the body of
lifecycle_state_get that lifecycle.c would hold. The raw value is compared for
exact equality against each of the five codewords of the header; a match
returns the bound state, no match returns Unrecognized. -/
def decode (raw : Nat) : CanonicalState :=
  if raw = lifecycle_state_t.kLcStateTest.value then .Test
  else if raw = lifecycle_state_t.kLcStateDev.value then .Dev
  else if raw = lifecycle_state_t.kLcStateProd.value then .Prod
  else if raw = lifecycle_state_t.kLcStateProdEnd.value then .ProdEnd
  else if raw = lifecycle_state_t.kLcStateRma.value then .Rma
  else .Unrecognized

/-- Modelled from the spec: get_state of section 4.5, the decode of a fresh
raw read (lifecycle_state_get in the header). The prototype returns
lifecycle_state_t, a 32-bit enumeration that names five values; the model
returns the canonical state of the specification, which adds the Unrecognized
outcome for the raw values that are none of the named ones. -/
def lifecycle_state_get (hw : Hardware) : CanonicalState :=
  decode (read_raw_state hw)

/-- Modelled from the spec: get_device_id of section 4.4
(lifecycle_device_id_get in the header, which writes through its pointer
argument). The eight words of the Register Reader are stored one after the
other, word i at index i, over whatever the structure held before. -/
def lifecycle_device_id_get (hw : Hardware) (device_id : lifecycle_device_id_t) :
    lifecycle_device_id_t :=
  ⟨(List.finRange kLifecycleDeviceIdNumWords).foldl
    (fun acc i => Function.update acc i (read_identity_words hw i))
    device_id.device_id⟩

/-! ## Helper lemmas -/

/-- Storing f i at every index i of a list, one after the other, leaves f at
the indices of the list and the old content elsewhere. -/
theorem foldl_update_apply {n : Nat} (f : Fin n → Nat) (l : List (Fin n))
    (g : Fin n → Nat) (j : Fin n) :
    (l.foldl (fun acc i => Function.update acc i (f i)) g) j
      = if j ∈ l then f j else g j := by
  induction l generalizing g with
  | nil => simp
  | cons a t ih =>
    rw [List.foldl_cons, ih]
    by_cases hj : j ∈ t
    · simp [hj]
    · by_cases hja : j = a
      · subst hja
        simp [hj]
      · simp [hj, hja, Function.update_noteq hja]

/-- A value is a codeword exactly when it is the value of an enumerator. -/
theorem mem_codewords_iff (x : Nat) :
    x ∈ codewords ↔ ∃ s : lifecycle_state_t, x = s.value := by
  constructor
  · intro h
    simp only [codewords, List.mem_map] at h
    obtain ⟨s, _, hs⟩ := h
    exact ⟨s, hs.symm⟩
  · rintro ⟨s, rfl⟩
    cases s <;> decide

/-- The decoder answers the state of an enumerator exactly on its value. -/
theorem decode_eq_canonical_iff (raw : Nat) (s : lifecycle_state_t) :
    decode raw = s.canonical ↔ raw = s.value := by
  constructor
  · intro h
    unfold decode at h
    split_ifs at h with h1 h2 h3 h4 h5 <;> cases s <;>
      first
        | assumption
        | (exact absurd h (by decide))
  · rintro rfl
    cases s <;> decide

/-- The decoder answers Unrecognized exactly off the codewords. -/
theorem decode_eq_unrecognized_iff (raw : Nat) :
    decode raw = .Unrecognized ↔ raw ∉ codewords := by
  constructor
  · intro h hmem
    obtain ⟨s, hs⟩ := (mem_codewords_iff raw).1 hmem
    have := (decode_eq_canonical_iff raw s).2 hs
    rw [h] at this
    cases s <;> exact absurd this (by decide)
  · intro h
    have hn : ∀ s : lifecycle_state_t, raw ≠ s.value :=
      fun s hs => h ((mem_codewords_iff raw).2 ⟨s, hs⟩)
    unfold decode
    rw [if_neg (hn _), if_neg (hn _), if_neg (hn _), if_neg (hn _), if_neg (hn _)]

/-- Two enumerators with the same canonical state are the same enumerator. -/
theorem canonical_injective : Function.Injective lifecycle_state_t.canonical := by
  intro a b h
  cases a <;> cases b <;> first | rfl | exact absurd h (by decide)

/-- Flipping exactly the bits of m in c and landing on d means m is the bitwise
difference of c and d. -/
theorem mask_eq_xor_of_xor_eq {c m d : Nat} (h : c ^^^ m = d) : m = c ^^^ d := by
  rw [← h, Nat.xor_cancel_left]

/-- The Hamming distance between two enumerator values is zero when they are
the same enumerator and at least 13 otherwise. -/
theorem distance_zero_or_ge (a b : lifecycle_state_t) :
    hammingDistance a.value b.value = 0 ∨ 13 ≤ hammingDistance a.value b.value := by
  cases a <;> cases b <;> decide

/-! ## The claims -/

/-- C1: decode returns, for each of the five codewords, exactly the state bound
to it (0xB2865FBB is Test, 0x0B5A75E0 is Dev, 0x65F2520F is Prod, 0x91B9B68A is
ProdEnd, 0xCF8CFAAB is Rma); decode restricted to the codewords is injective;
and a status register holding 0x65F2520F makes lifecycle_state_get return
Prod. -/
theorem decode_codewords :
    decode 0xB2865FBB = .Test ∧ decode 0x0B5A75E0 = .Dev ∧ decode 0x65F2520F = .Prod ∧
    decode 0x91B9B68A = .ProdEnd ∧ decode 0xCF8CFAAB = .Rma ∧
    (∀ s : lifecycle_state_t, decode s.value = s.canonical) ∧
    Set.InjOn decode {x | x ∈ codewords} ∧
    (codewords.map decode).Nodup ∧
    (∀ words, lifecycle_state_get ⟨0x65F2520F, words⟩ = .Prod) := by
  refine ⟨by decide, by decide, by decide, by decide, by decide, ?_, ?_, by decide, ?_⟩
  · intro s
    exact (decode_eq_canonical_iff _ s).2 rfl
  · intro a ha b hb hab
    obtain ⟨s, rfl⟩ := (mem_codewords_iff a).1 ha
    obtain ⟨t, rfl⟩ := (mem_codewords_iff b).1 hb
    rw [(decode_eq_canonical_iff _ s).2 rfl, (decode_eq_canonical_iff _ t).2 rfl] at hab
    rw [canonical_injective hab]
  · intro words
    simp only [lifecycle_state_get, read_raw_state]
    decide

/-- C2: on every 32-bit input decode has a result, and that result is
Unrecognized when the input is none of the five codewords; it is one of the five
canonical states exactly when the input equals the codeword of that state; a
status register holding the input makes lifecycle_state_get return its
decode. -/
theorem decode_total (raw : Nat) (hraw : raw < 2 ^ 32) :
    (∃ r, decode raw = r) ∧
    (raw ∉ codewords → decode raw = .Unrecognized) ∧
    (decode raw = .Unrecognized ↔
      raw ≠ 0xB2865FBB ∧ raw ≠ 0x0B5A75E0 ∧ raw ≠ 0x65F2520F ∧
      raw ≠ 0x91B9B68A ∧ raw ≠ 0xCF8CFAAB) ∧
    (decode raw = .Test ↔ raw = 0xB2865FBB) ∧
    (decode raw = .Dev ↔ raw = 0x0B5A75E0) ∧
    (decode raw = .Prod ↔ raw = 0x65F2520F) ∧
    (decode raw = .ProdEnd ↔ raw = 0x91B9B68A) ∧
    (decode raw = .Rma ↔ raw = 0xCF8CFAAB) ∧
    (∀ words, lifecycle_state_get ⟨raw, words⟩ = decode raw) := by
  refine ⟨⟨_, rfl⟩, (decode_eq_unrecognized_iff raw).2, ?_,
    decode_eq_canonical_iff raw .kLcStateTest, decode_eq_canonical_iff raw .kLcStateDev,
    decode_eq_canonical_iff raw .kLcStateProd, decode_eq_canonical_iff raw .kLcStateProdEnd,
    decode_eq_canonical_iff raw .kLcStateRma, ?_⟩
  · rw [decode_eq_unrecognized_iff]
    simp [codewords, lifecycle_state_t.all, lifecycle_state_t.value]
  · intro words
    simp only [lifecycle_state_get, read_raw_state]
    rw [Nat.mod_eq_of_lt hraw]

/-- C2 at the two boundary values: 0x00000000 and 0xFFFFFFFF are 32-bit values
and decode to Unrecognized. -/
theorem decode_total_witness :
    (0 < 2 ^ 32 ∧ decode 0 = .Unrecognized) ∧
    (0xFFFFFFFF < 2 ^ 32 ∧ decode 0xFFFFFFFF = .Unrecognized) :=
  ⟨⟨by decide, (decode_total 0 (by decide)).2.1 (by decide)⟩,
   ⟨by decide, (decode_total 0xFFFFFFFF (by decide)).2.1 (by decide)⟩⟩

/-- C3: the codeword table of the code is the table of the register-level
contract, entry for entry; there are exactly five codewords, kLcStateTest is
0xB2865FBB, kLcStateDev is 0x0B5A75E0, kLcStateProd is 0x65F2520F,
kLcStateProdEnd is 0x91B9B68A, kLcStateRma is 0xCF8CFAAB, and each fits in an
unsigned 32-bit value. -/
theorem codeword_table_bit_exact :
    codewordTable = specCodewordTable ∧
    codewords = [0xB2865FBB, 0x0B5A75E0, 0x65F2520F, 0x91B9B68A, 0xCF8CFAAB] ∧
    codewords.length = 5 ∧ codewords.Nodup ∧
    Fintype.card lifecycle_state_t = 5 ∧
    lifecycle_state_t.kLcStateTest.value = 0xB2865FBB ∧
    lifecycle_state_t.kLcStateDev.value = 0x0B5A75E0 ∧
    lifecycle_state_t.kLcStateProd.value = 0x65F2520F ∧
    lifecycle_state_t.kLcStateProdEnd.value = 0x91B9B68A ∧
    lifecycle_state_t.kLcStateRma.value = 0xCF8CFAAB ∧
    (∀ s : lifecycle_state_t, s.value < 2 ^ 32) := by
  refine ⟨by decide, by decide, by decide, by decide, by decide, rfl, rfl, rfl, rfl, rfl, ?_⟩
  intro s
  cases s <;> decide

/-- C4: any two distinct codewords of lifecycle_state_t are at Hamming distance
at least 13. -/
theorem min_hamming_distance (x y : Nat) (hx : x ∈ codewords) (hy : y ∈ codewords)
    (hxy : x ≠ y) : 13 ≤ hammingDistance x y := by
  obtain ⟨s, rfl⟩ := (mem_codewords_iff x).1 hx
  obtain ⟨t, rfl⟩ := (mem_codewords_iff y).1 hy
  rcases distance_zero_or_ge s t with h | h
  · exfalso
    revert hxy h
    cases s <;> cases t <;> decide
  · exact h

/-- C4 at the closest pair, Test and Rma. -/
theorem min_hamming_distance_witness :
    0xb2865fbb ∈ codewords ∧ 0xcf8cfaab ∈ codewords ∧ 0xb2865fbb ≠ 0xcf8cfaab ∧
    13 ≤ hammingDistance 0xb2865fbb 0xcf8cfaab :=
  ⟨by decide, by decide, by decide,
   min_hamming_distance 0xb2865fbb 0xcf8cfaab (by decide) (by decide) (by decide)⟩

/-- C5: for every codeword c of the header and every bit position i from 0 to
31, the value c with bit i flipped decodes to Unrecognized: it is not the state
of c, not the state of any other enumerator, and not a codeword at all. -/
theorem single_bit_flip_unrecognized (s : lifecycle_state_t) (i : Nat) (hi : i < 32) :
    decode (s.value ^^^ 2 ^ i) = .Unrecognized ∧
    decode (s.value ^^^ 2 ^ i) ≠ s.canonical ∧
    (∀ t : lifecycle_state_t, decode (s.value ^^^ 2 ^ i) ≠ t.canonical) ∧
    s.value ^^^ 2 ^ i ∉ codewords := by
  have h : decode (s.value ^^^ 2 ^ i) = .Unrecognized := by
    interval_cases i <;> cases s <;> decide
  refine ⟨h, ?_, ?_, (decode_eq_unrecognized_iff _).1 h⟩
  · rw [h]
    cases s <;> decide
  · intro t
    rw [h]
    cases t <;> decide

/-- C5 on the example of the specification: 0xCF8CFAAB with bit 0 flipped is
0xCF8CFAAA, which decodes to Unrecognized and not to Rma. -/
theorem single_bit_flip_unrecognized_witness :
    0 < 32 ∧ 0xCF8CFAAB ^^^ 2 ^ 0 = 0xCF8CFAAA ∧
    decode (lifecycle_state_t.kLcStateRma.value ^^^ 2 ^ 0) = .Unrecognized ∧
    decode (lifecycle_state_t.kLcStateRma.value ^^^ 2 ^ 0) ≠ .Rma :=
  ⟨by decide, by decide,
   (single_bit_flip_unrecognized .kLcStateRma 0 (by decide)).1,
   (single_bit_flip_unrecognized .kLcStateRma 0 (by decide)).2.1⟩

/-- C7: every one of the five codewords has Hamming weight between 15 and 20;
the weights are 19, 15, 16, 16 and 20 in declaration order, so the least weight
is exactly 15 and the greatest exactly 20. -/
theorem hamming_weight_bounds :
    (∀ s : lifecycle_state_t, 15 ≤ hammingWeight s.value ∧ hammingWeight s.value ≤ 20) ∧
    codewords.map hammingWeight = [19, 15, 16, 16, 20] ∧
    (codewords.map hammingWeight).min? = some 15 ∧
    (codewords.map hammingWeight).max? = some 20 ∧
    (∃ s : lifecycle_state_t, hammingWeight s.value = 15) ∧
    (∃ s : lifecycle_state_t, hammingWeight s.value = 20) := by
  refine ⟨?_, by decide, by decide, by decide, ⟨.kLcStateDev, by decide⟩,
    ⟨.kLcStateRma, by decide⟩⟩
  intro s
  cases s <;> decide

/-- C8: the identifier has exactly eight 32-bit words, 256 bits in total, and
lifecycle_device_id_get preserves word order: whatever the structure held
before, word i of the result is word i of the raw identifier words, for every
index i, and is a 32-bit value. -/
theorem device_id_word_order (hw : Hardware) (device_id : lifecycle_device_id_t) :
    kLifecycleDeviceIdNumWords = 8 ∧
    kLifecycleDeviceIdNumWords * kWordBits = 256 ∧
    (∀ i : Fin kLifecycleDeviceIdNumWords,
      (lifecycle_device_id_get hw device_id).device_id i = read_identity_words hw i) ∧
    (∀ i : Fin kLifecycleDeviceIdNumWords,
      (lifecycle_device_id_get hw device_id).device_id i < 2 ^ 32) := by
  have h : ∀ i : Fin kLifecycleDeviceIdNumWords,
      (lifecycle_device_id_get hw device_id).device_id i = read_identity_words hw i := by
    intro i
    simp only [lifecycle_device_id_get]
    rw [foldl_update_apply, if_pos (List.mem_finRange i)]
  refine ⟨rfl, rfl, h, ?_⟩
  intro i
  rw [h i]
  exact Nat.mod_lt _ (by decide)

/-- C9: the histogram of the header holds. Over the 10 unordered pairs of
distinct codewords, 1 pair is at distance 13, 1 at 14, 2 at 16, 4 at 17, 1 at 18
and 1 at 19, every distance occurs as often as the header says (so no pair is at
any other distance), the least distance is exactly 13 and the greatest exactly
19. -/
theorem hamming_distance_histogram :
    pairDistances.length = 10 ∧
    pairDistances.count 13 = 1 ∧ pairDistances.count 14 = 1 ∧
    pairDistances.count 16 = 2 ∧ pairDistances.count 17 = 4 ∧
    pairDistances.count 18 = 1 ∧ pairDistances.count 19 = 1 ∧
    (∀ d : Nat, pairDistances.count d = headerHistogram d) ∧
    pairDistances.toFinset = {13, 14, 16, 17, 18, 19} ∧
    pairDistances.min? = some 13 ∧ pairDistances.max? = some 19 := by
  have hl : pairDistances = [18, 17, 17, 13, 19, 17, 17, 16, 16, 14] := by decide
  refine ⟨by decide, by decide, by decide, by decide, by decide, by decide, by decide,
    ?_, by decide, by decide, by decide⟩
  intro d
  rw [hl]
  by_cases hd : d ≤ 19
  · interval_cases d <;> decide
  · have h13 : d ≠ 13 := by omega
    have h14 : d ≠ 14 := by omega
    have h16 : d ≠ 16 := by omega
    have h17 : d ≠ 17 := by omega
    have h18 : d ≠ 18 := by omega
    have h19 : d ≠ 19 := by omega
    simp [headerHistogram, List.count_cons, h13, h14, h16, h17, h18, h19,
      Ne.symm h13, Ne.symm h14, Ne.symm h16, Ne.symm h17, Ne.symm h18, Ne.symm h19]

/-- C10: for every codeword c of lifecycle_state_t and every 32-bit mask m of
Hamming weight from 1 to 12, the value c with the bits of m flipped is none of
the five codewords; and the bound is tight: the codeword of Test with the 13
bits of the mask 0x7D0AA510 flipped is the codeword of Rma. -/
theorem few_bit_fault_resistance :
    (∀ c ∈ codewords, ∀ m : Nat, m < 2 ^ 32 → 1 ≤ hammingWeight m →
      hammingWeight m ≤ 12 → c ^^^ m ∉ codewords) ∧
    (∃ c ∈ codewords, ∃ m : Nat, m < 2 ^ 32 ∧ hammingWeight m = 13 ∧
      c ^^^ m ∈ codewords ∧ c ^^^ m ≠ c) := by
  constructor
  · intro c hc m _ h1 h12 hmem
    obtain ⟨s, rfl⟩ := (mem_codewords_iff c).1 hc
    obtain ⟨t, ht⟩ := (mem_codewords_iff _).1 hmem
    have hm : hammingWeight m = hammingDistance s.value t.value := by
      rw [mask_eq_xor_of_xor_eq ht, hammingDistance]
    rcases distance_zero_or_ge s t with h | h <;> omega
  · exact ⟨0xb2865fbb, by decide, 0x7d0aa510, by decide, by decide, by decide, by decide⟩

/-- C10 at the codeword of Test and the one-bit mask 1. -/
theorem few_bit_fault_resistance_witness :
    0xb2865fbb ∈ codewords ∧ 1 < 2 ^ 32 ∧ 1 ≤ hammingWeight 1 ∧ hammingWeight 1 ≤ 12 ∧
    0xb2865fbb ^^^ 1 ∉ codewords :=
  ⟨by decide, by decide, by decide, by decide,
   few_bit_fault_resistance.1 0xb2865fbb (by decide) 1 (by decide) (by decide) (by decide)⟩

end Lifecycle
